import Mathlib

/-!
Shallow embedding of `src/afternic_analytics.py` (a pandas-based
domain-auction analytics pipeline) and verification of the specification's
claims about it.

Modelling conventions:
* A pandas `DataFrame` is a `Table`: an ordered list of column names and an
  ordered list of rows, each row a list of cell values aligned with the
  column list.  `Table.WF` states the rectangularity that every real frame
  has (each row as long as the column list).
* A cell is a `Value`: `na` models both a missing value (`NaN`/`NaT`) and
  the "undefined" marker produced by a failed coercion — pandas uses the
  same sentinel for both; `num` models a numeric cell (floats are modelled
  as exact rationals), `str` a text cell, and `date` a `datetime` cell.
* Fallible pandas operations (a `dropna` whose `subset` names an absent
  column raises `KeyError`; arithmetic or comparisons on incompatible cell
  types raise `TypeError`) are embedded as `Option`-valued functions, with
  `none` standing for a raised exception.
* `pd.to_datetime(..., errors='coerce')` string parsing is modelled for
  ISO `YYYY-MM-DD` strings (the format used throughout); every other string
  coerces to `na`, as an unparseable string does in pandas.  A numeric cell
  in a date column (which pandas would read as an epoch offset — a case no
  data in this repository exercises) is likewise modelled as a failed
  parse.  `pd.to_numeric(..., errors='coerce')` is modelled for plain
  decimal literals.
* `DataFrame.sort_values(by=k, ascending=False)` is modelled the way the
  pandas `nargsort` routine implements it: the non-missing rows are
  argsorted ascending by a stable sort, the resulting order is reversed,
  and rows whose key is missing are appended at the end
  (`na_position='last'`).  Note the reversal: pandas does not produce a
  stable descending sort.
-/

namespace Afternic

/-! ## Dates -/

/-- A calendar date, modelling a pandas `Timestamp` at midnight. -/
structure Date where
  year : Int
  month : Nat
  day : Nat
deriving Repr, DecidableEq

/-- Gregorian leap-year test. -/
def isLeap (y : Int) : Bool :=
  y % 4 == 0 && (y % 100 != 0 || y % 400 == 0)

/-- Number of days in a month of a given year. -/
def daysInMonth (y : Int) (m : Nat) : Nat :=
  if m = 2 then (if isLeap y then 29 else 28)
  else if m = 4 ∨ m = 6 ∨ m = 9 ∨ m = 11 then 30
  else 31

/-- Days since 1970-01-01 of a civil date (the standard era-based
conversion; used to model timedelta `.days`). -/
def Date.toDays (dt : Date) : Int :=
  let y : Int := dt.year - (if dt.month ≤ 2 then 1 else 0)
  let era : Int := Int.fdiv y 400
  let yoe : Int := y - era * 400
  let mp : Int := ((dt.month : Int) + 9) % 12
  let doy : Int := (153 * mp + 2) / 5 + (dt.day : Int) - 1
  let doe : Int := yoe * 365 + yoe / 4 - yoe / 100 + doy
  era * 146097 + doe - 719468

/-! ## Text parsing (models of pandas coercion parsers) -/

/-- Decimal digit value of a character, if it is a digit. -/
def charDigit (c : Char) : Option Nat :=
  if '0' ≤ c ∧ c ≤ '9' then some (c.toNat - 48) else none

/-- Accumulating decimal reader over a character list. -/
def readNatAux : List Char → Nat → Option Nat
  | [], acc => some acc
  | c :: cs, acc =>
    match charDigit c with
    | some d => readNatAux cs (acc * 10 + d)
    | none => none

/-- Read a nonempty all-digit character list as a natural number. -/
def readNat : List Char → Option Nat
  | [] => none
  | cs => readNatAux cs 0

/-- Split a character list on a separator character. -/
def splitOnCharAux (sep : Char) : List Char → List Char → List (List Char)
  | [], acc => [acc.reverse]
  | c :: rest, acc =>
    if c = sep then acc.reverse :: splitOnCharAux sep rest []
    else splitOnCharAux sep rest (c :: acc)

/-- Split a character list on a separator character. -/
def splitOnChar (sep : Char) (cs : List Char) : List (List Char) :=
  splitOnCharAux sep cs []

/-- Model of the date parser behind `pd.to_datetime`, restricted to ISO
`YYYY-MM-DD` strings (the only date format appearing in this data). -/
def parseDate (s : String) : Option Date :=
  match splitOnChar '-' s.toList with
  | [ys, ms, ds] =>
    match readNat ys, readNat ms, readNat ds with
    | some y, some m, some d =>
      if 1 ≤ m ∧ m ≤ 12 ∧ 1 ≤ d ∧ d ≤ daysInMonth (Int.ofNat y) m then
        some ⟨Int.ofNat y, m, d⟩
      else none
    | _, _, _ => none
  | _ => none

/-- Unsigned decimal-literal reader (digits with an optional fractional
part), producing an exact rational. -/
def parseUnsigned (cs : List Char) : Option Rat :=
  match splitOnChar '.' cs with
  | [as] => (readNat as).map (fun n => (n : Rat))
  | [as, bs] =>
    match readNat as, readNat bs with
    | some a, some b => some ((a : Rat) + (b : Rat) / ((10 : Rat) ^ bs.length))
    | _, _ => none
  | _ => none

/-- Model of the numeric parser behind `pd.to_numeric`, restricted to plain
decimal literals with an optional leading minus sign. -/
def parseNum (s : String) : Option Rat :=
  match s.toList with
  | '-' :: rest => (parseUnsigned rest).map (fun x => -x)
  | cs => parseUnsigned cs

/-! ## Cell values -/

/-- One cell of a DataFrame.  `na` models `NaN`/`NaT`, i.e. both a missing
source value and the "undefined" marker left by a failed coercion. -/
inductive Value where
  | na
  | num (x : Rat)
  | str (s : String)
  | date (d : Date)
deriving Repr, DecidableEq

/-- Model of `pd.to_datetime(cell, errors='coerce')` on one cell: dates
pass through, `NaN` becomes `NaT`, a string parses or becomes `NaT`,
anything else fails to coerce. -/
def coerceDate : Value → Value
  | .na => .na
  | .date d => .date d
  | .str s =>
    match parseDate s with
    | some d => .date d
    | none => .na
  | .num _ => .na

/-- Model of `pd.to_numeric(cell, errors='coerce')` on one cell: numbers
pass through, `NaN` stays, a string parses or becomes `NaN`, anything else
fails to coerce. -/
def coerceNum : Value → Value
  | .na => .na
  | .num x => .num x
  | .str s =>
    match parseNum s with
    | some x => .num x
    | none => .na
  | .date _ => .na

/-- Is this cell a numeric value? -/
def Value.isNum : Value → Bool
  | .num _ => true
  | _ => false

/-- Is this cell a date value? -/
def Value.isDate : Value → Bool
  | .date _ => true
  | _ => false

/-- Is this cell missing / undefined? -/
def Value.isNa : Value → Bool
  | .na => true
  | _ => false

/-! ## Tables -/

/-- A DataFrame: ordered column names plus rows of cells aligned with the
column list positionally. -/
structure Table where
  cols : List String
  rows : List (List Value)
deriving Repr, DecidableEq

/-- Rectangularity: every row is as long as the column list (true of every
real DataFrame; the embedding's row lists could otherwise be ragged). -/
def Table.WF (t : Table) : Prop :=
  ∀ r ∈ t.rows, r.length = t.cols.length

instance (t : Table) : Decidable t.WF := by
  unfold Table.WF
  infer_instance

/-- Cell lookup by column name (first occurrence), walking the column list
and the row in lockstep; `na` when the column is absent, as no real lookup
path reaches that case. -/
def getCell : List String → List Value → String → Value
  | [], _, _ => .na
  | _ :: _, [], _ => .na
  | c :: cs, v :: vs, target => if c = target then v else getCell cs vs target

/-- Overwrite the cell of an existing column (first occurrence) in one
row. -/
def setAtCol : List String → List Value → String → Value → List Value
  | c :: cs, v :: vs, target, w =>
    if c = target then w :: vs else v :: setAtCol cs vs target w
  | _, r, _, _ => r

/-- Model of the column assignment `df[c] = series`: replace the column if
the name exists, otherwise append it on the right. -/
def Table.setCol (t : Table) (c : String) (vs : List Value) : Table :=
  if c ∈ t.cols then
    ⟨t.cols, List.zipWith (fun r w => setAtCol t.cols r c w) t.rows vs⟩
  else
    ⟨t.cols ++ [c], List.zipWith (fun r w => r ++ [w]) t.rows vs⟩

/-- Does this row have a non-missing value in every subset column? -/
def rowComplete (cols subset : List String) (r : List Value) : Bool :=
  subset.all (fun c => getCell cols r c != Value.na)

/-- Model of `df.dropna(subset=subset)`: `KeyError` (i.e. `none`) when a
subset column is absent, otherwise keep the rows with no missing value in
the subset columns. -/
def dropna (t : Table) (subset : List String) : Option Table :=
  if subset.all (fun c => decide (c ∈ t.cols)) then
    some ⟨t.cols, t.rows.filter (rowComplete t.cols subset)⟩
  else none

/-! ## Step 2: clean_data -/

/-- The date columns coerced by `clean_data` (source line 38). -/
def date_cols : List String := ["startDate", "endDate", "registeredDate"]

/-- The numeric columns coerced by `clean_data` (source lines 44-49). -/
def numeric_cols : List String :=
  ["price", "startPrice", "renewPrice", "bidCount",
   "ahrefsDomainRating", "alexaRanking", "umbrellaRanking",
   "backlinksCount", "cloudflareRanking", "estibotValue",
   "extensionsTaken", "keywordSearchCount", "lastSoldPrice"]

/-- The coercion `clean_data` applies to a cell of column `c`: date columns
through `to_datetime`, numeric columns through `to_numeric`, all other
columns untouched.  (The two column lists are disjoint, so the date-first
order of the source's two loops does not matter cellwise.) -/
def coerceCell (c : String) (v : Value) : Value :=
  if c ∈ date_cols then coerceDate v
  else if c ∈ numeric_cols then coerceNum v
  else v

/-- Apply `coerceCell` across one row (positions aligned with `cols`). -/
def coerceRow (cols : List String) (r : List Value) : List Value :=
  List.zipWith coerceCell cols r

/-- The two coercion loops of `clean_data` over the whole table. -/
def coerceTable (t : Table) : Table :=
  ⟨t.cols, t.rows.map (coerceRow t.cols)⟩

/-- Model of `clean_data` (source lines 26-57): drop rows missing `price`,
`startPrice` or `registeredDate`; coerce date and numeric columns; drop
rows whose `price` or `bidCount` is missing after coercion. -/
def clean_data (df : Table) : Option Table := do
  let df1 ← dropna df ["price", "startPrice", "registeredDate"]
  let df2 := coerceTable df1
  dropna df2 ["price", "bidCount"]

/-! ## Step 3: feature_engineering -/

/-- Option-valued map over a list, `none` as soon as one element fails
(models a vectorized pandas operation that raises on some row). -/
def mapOpt (f : α → Option β) : List α → Option (List β)
  | [] => some []
  | a :: as =>
    match f a, mapOpt f as with
    | some b, some bs => some (b :: bs)
    | _, _ => none

/-- The `domainLength` lambda (source line 68): `len(x)` when the cell is a
string, `NaN` otherwise; never raises. -/
def domLenCell : Value → Value
  | .str s => .num (s.length : Rat)
  | _ => .na

/-- The `domainAge` lambda (source line 74): `current_year - x.year` on a
date, `NaN` on a missing value, and an `AttributeError` (`none`) on any
other cell type, which has no `.year`. -/
def domAgeCell (year : Int) : Value → Option Value
  | .date d => some (.num ((year - d.year : Int) : Rat))
  | .na => some .na
  | _ => none

/-- Elementwise model of the column subtraction `df['price'] -
df['startPrice']` (source line 78): numbers subtract, `NaN` propagates
against a number or `NaN`, any other operand pair raises (`none`). -/
def subCell : Value → Value → Option Value
  | .num a, .num b => some (.num (a - b))
  | .na, .num _ => some .na
  | .num _, .na => some .na
  | .na, .na => some .na
  | _, _ => none

/-- Elementwise model of `(df['endDate'] - df['startDate']).dt.days`
(source line 82): whole-day difference of two dates, `NaN` propagation for
`NaT`, a raise (`none`) on non-datetime cells. -/
def dateSubCell : Value → Value → Option Value
  | .date e, .date s => some (.num ((e.toDays - s.toDays : Int) : Rat))
  | .na, .date _ => some .na
  | .date _, .na => some .na
  | .na, .na => some .na
  | _, _ => none

/-- The `domainLength` block of `feature_engineering` (source lines
67-68): present only when `url` is a column; `.apply` never raises. -/
def addDomainLength (df : Table) : Table :=
  if "url" ∈ df.cols then
    df.setCol "domainLength" (df.rows.map (fun r => domLenCell (getCell df.cols r "url")))
  else df

/-- The `domainAge` block of `feature_engineering` (source lines 72-74);
`year` stands for `datetime.now().year`. -/
def addDomainAge (year : Int) (df : Table) : Option Table :=
  if "registeredDate" ∈ df.cols then
    (mapOpt (fun r => domAgeCell year (getCell df.cols r "registeredDate")) df.rows).bind
      (fun vs => some (df.setCol "domainAge" vs))
  else some df

/-- The `priceDiff` block of `feature_engineering` (source lines 77-78). -/
def addPriceDiff (df : Table) : Option Table :=
  if "price" ∈ df.cols ∧ "startPrice" ∈ df.cols then
    (mapOpt (fun r => subCell (getCell df.cols r "price") (getCell df.cols r "startPrice"))
        df.rows).bind
      (fun vs => some (df.setCol "priceDiff" vs))
  else some df

/-- The `auctionDurationDays` block of `feature_engineering` (source lines
81-82). -/
def addAuctionDuration (df : Table) : Option Table :=
  if "startDate" ∈ df.cols ∧ "endDate" ∈ df.cols then
    (mapOpt (fun r => dateSubCell (getCell df.cols r "endDate") (getCell df.cols r "startDate"))
        df.rows).bind
      (fun vs => some (df.setCol "auctionDurationDays" vs))
  else some df

/-- Model of `feature_engineering` (source lines 62-84): the four
derived-column blocks in source order, each computed and assigned only
when its source column(s) exist at that point. -/
def feature_engineering (year : Int) (df : Table) : Option Table :=
  (addDomainAge year (addDomainLength df)).bind
    (fun df2 => (addPriceDiff df2).bind (fun df3 => addAuctionDuration df3))

/-! ## Step 5: suggest_domains -/

/-- Elementwise model of `cell < threshold` in the filter mask: a numeric
comparison, `False` for `NaN` (as in pandas), a `TypeError` (`none`) for a
string or date cell compared against a number. -/
def ltVal : Value → Rat → Option Bool
  | .num x, p => some (decide (x < p))
  | .na, _ => some false
  | _, _ => none

/-- Elementwise model of `cell > threshold` in the filter mask. -/
def gtVal : Value → Rat → Option Bool
  | .num x, q => some (decide (q < x))
  | .na, _ => some false
  | _, _ => none

/-- One row of the boolean mask `(df['price'] < p) &
(df['ahrefsDomainRating'] > q)`. -/
def rowMask (cols : List String) (p q : Rat) (r : List Value) : Option Bool :=
  match ltVal (getCell cols r "price") p, gtVal (getCell cols r "ahrefsDomainRating") q with
  | some b1, some b2 => some (b1 && b2)
  | _, _ => none

/-- Boolean-mask row selection `df[mask]`; `none` when computing the mask
raises on some row. -/
def filterMask (f : List Value → Option Bool) : List (List Value) → Option (List (List Value))
  | [] => some []
  | r :: rs =>
    match f r, filterMask f rs with
    | some b, some rest => some (if b then r :: rest else rest)
    | _, _ => none

/-- Is the sort key (`ahrefsDomainRating`) of this row missing? -/
def ratingIsNa (cols : List String) (r : List Value) : Bool :=
  getCell cols r "ahrefsDomainRating" == Value.na

/-- Numeric sort key of a row.  After the filter every surviving row has a
numeric rating; the default `0` is never reached on those rows. -/
def ratingKey (cols : List String) (r : List Value) : Rat :=
  match getCell cols r "ahrefsDomainRating" with
  | .num x => x
  | _ => 0

/-- Model of `sort_values(by='ahrefsDomainRating', ascending=False)` the
way pandas `nargsort` performs it: stable ascending argsort of the rows
with a present key, then reverse that order, then append the missing-key
rows (`na_position='last'`). -/
def sortDesc (cols : List String) (rows : List (List Value)) : List (List Value) :=
  let nonNa := rows.filter (fun r => !ratingIsNa cols r)
  let nas := rows.filter (fun r => ratingIsNa cols r)
  (List.insertionSort (fun r s => ratingKey cols r ≤ ratingKey cols s) nonNa).reverse ++ nas

/-- The empty DataFrame `pd.DataFrame()`. -/
def emptyTable : Table := ⟨[], []⟩

/-- Model of `suggest_domains` (source lines 122-144).  The result pairs
the diagnostic messages printed by the call with the returned table;
`none` models a raised exception.  The default thresholds are those of the
source line 122. -/
def suggest_domains (df : Table) (price_threshold : Rat := 500)
    (rating_threshold : Rat := 10) : Option (List String × Table) :=
  if "price" ∉ df.cols then
    some (["Column price not found in DataFrame."], emptyTable)
  else if "ahrefsDomainRating" ∉ df.cols then
    some (["Column ahrefsDomainRating not found in DataFrame."], emptyTable)
  else
    match filterMask (rowMask df.cols price_threshold rating_threshold) df.rows with
    | some kept => some ([], ⟨df.cols, sortDesc df.cols kept⟩)
    | none => none

/-- The `suggest_domains` call made by `main` (source line 166), which
passes both thresholds explicitly. -/
def main_suggest (df : Table) : Option (List String × Table) :=
  suggest_domains df 500 20

/-! ## Heap-passing model of suggest_domains, for the no-mutation claim

The pure model above cannot express mutation, so the frame claim is settled
against an operational rendering: DataFrames live in a store (list of
tables), a variable is an index into it, boolean indexing and `.copy()`
allocate fresh entries, and `sort_values(..., inplace=True)` writes in
place through the local reference.  The claim is then that the caller's
entry is untouched. -/

/-- Dereference a DataFrame variable in the store. -/
def readRef (σ : List Table) (i : Nat) : Table :=
  σ.getD i emptyTable

/-- In-place `sort_values` on a whole table. -/
def sortTable (t : Table) : Table :=
  ⟨t.cols, sortDesc t.cols t.rows⟩

/-- Operational model of `suggest_domains` over a store: `df` is the
caller's reference; the result is the final store, the reference holding
the returned table, and the printed messages. -/
def suggestStep (σ : List Table) (dfRef : Nat) (p q : Rat) :
    Option (List Table × Nat × List String) :=
  let df := readRef σ dfRef
  if "price" ∉ df.cols then
    some (σ ++ [emptyTable], σ.length, ["Column price not found in DataFrame."])
  else if "ahrefsDomainRating" ∉ df.cols then
    some (σ ++ [emptyTable], σ.length, ["Column ahrefsDomainRating not found in DataFrame."])
  else
    match filterMask (rowMask df.cols p q) df.rows with
    | some kept =>
      let σ1 := σ ++ [(⟨df.cols, kept⟩ : Table)]
      let fRef := σ.length
      let σ2 := σ1 ++ [readRef σ1 fRef]
      let cRef := σ1.length
      let σ3 := σ2.set cRef (sortTable (readRef σ2 cRef))
      some (σ3, cRef, [])
    | none => none

/-! ## Concrete tables used by counterexamples and witnesses -/

/-- The three-row end-to-end scenario table: rows A and B fully populated,
row C missing `price` (its other cells arbitrary but plausible). -/
def tbl9 : Table :=
  ⟨["url", "price", "startPrice", "ahrefsDomainRating", "registeredDate", "bidCount"],
   [[.str "ab.com", .num 100, .num 80, .num 30, .str "2015-01-01", .num 2],
    [.str "cd.com", .num 600, .num 500, .num 50, .str "2010-01-01", .num 5],
    [.str "ef.com", .na, .num 10, .num 5, .str "2000-01-01", .num 1]]⟩

/-- What `clean_data` makes of `tbl9`: row C dropped, dates coerced. -/
def tbl9clean : Table :=
  ⟨["url", "price", "startPrice", "ahrefsDomainRating", "registeredDate", "bidCount"],
   [[.str "ab.com", .num 100, .num 80, .num 30, .date ⟨2015, 1, 1⟩, .num 2],
    [.str "cd.com", .num 600, .num 500, .num 50, .date ⟨2010, 1, 1⟩, .num 5]]⟩

/-- Row A of the feature-engineered scenario table. -/
def tbl9feA : List Value :=
  [.str "ab.com", .num 100, .num 80, .num 30, .date ⟨2015, 1, 1⟩, .num 2,
   .num 6, .num 10, .num (100 - 80)]

/-- Row B of the feature-engineered scenario table. -/
def tbl9feB : List Value :=
  [.str "cd.com", .num 600, .num 500, .num 50, .date ⟨2010, 1, 1⟩, .num 5,
   .num 6, .num 15, .num (600 - 500)]

/-- What `feature_engineering` (run in year 2025) makes of `tbl9clean`. -/
def tbl9fe : Table :=
  ⟨["url", "price", "startPrice", "ahrefsDomainRating", "registeredDate", "bidCount",
    "domainLength", "domainAge", "priceDiff"],
   [tbl9feA, tbl9feB]⟩

/-- A one-row table whose `startPrice` is a string `to_numeric` cannot
parse and whose `registeredDate` parses fine. -/
def tblBadSP : Table :=
  ⟨["price", "startPrice", "registeredDate", "bidCount"],
   [[.num 5, .str "abc", .str "2020-01-01", .num 3]]⟩

/-- What `clean_data` makes of `tblBadSP`: the row survives with an
undefined `startPrice`. -/
def tblBadSPclean : Table :=
  ⟨["price", "startPrice", "registeredDate", "bidCount"],
   [[.num 5, .na, .date ⟨2020, 1, 1⟩, .num 3]]⟩

/-- Two selectable rows with equal `ahrefsDomainRating`, to probe sort
stability. -/
def tblTie : Table :=
  ⟨["price", "ahrefsDomainRating", "url"],
   [[.num 10, .num 30, .str "a"],
    [.num 20, .num 30, .str "b"]]⟩

/-- First row of `tblTie`. -/
def rowTieA : List Value := [.num 10, .num 30, .str "a"]

/-- Second row of `tblTie`. -/
def rowTieB : List Value := [.num 20, .num 30, .str "b"]

/-- A table that already has a `domainLength` column but no `url` column. -/
def tblDL : Table := ⟨["domainLength"], [[.num 5]]⟩

/-- A table whose one row has an undefined `price` and a string
`startPrice`. -/
def tblMix : Table := ⟨["price", "startPrice"], [[.na, .str "x"]]⟩

/-- A table with no `price` column. -/
def tblNoPrice : Table := ⟨["url"], [[.str "a.com"]]⟩

/-- A one-row table whose rating lies strictly between the code's default
threshold 10 and the documented threshold 20. -/
def tblMid : Table := ⟨["price", "ahrefsDomainRating"], [[.num 100, .num 15]]⟩

/-- Weakly descending rating order between two rows: whenever both carry
numeric `ahrefsDomainRating` values, the later row's does not exceed the
earlier row's. -/
def ratingGE (cols : List String) (r s : List Value) : Prop :=
  ∀ x y : Rat, getCell cols r "ahrefsDomainRating" = Value.num x →
    getCell cols s "ahrefsDomainRating" = Value.num y → y ≤ x

end Afternic

namespace Afternic

/-! ## Basic lemmas about coercion and lookup -/

theorem coerceCell_na (c : String) : coerceCell c Value.na = Value.na := by
  unfold coerceCell
  split
  · rfl
  · split <;> rfl

theorem coerceDate_idem (v : Value) : coerceDate (coerceDate v) = coerceDate v := by
  cases v with
  | str s => cases hp : parseDate s <;> simp [coerceDate, hp]
  | _ => rfl

theorem coerceNum_idem (v : Value) : coerceNum (coerceNum v) = coerceNum v := by
  cases v with
  | str s => cases hp : parseNum s <;> simp [coerceNum, hp]
  | _ => rfl

theorem coerceCell_idem (c : String) (v : Value) :
    coerceCell c (coerceCell c v) = coerceCell c v := by
  unfold coerceCell
  split
  · exact coerceDate_idem v
  · split
    · exact coerceNum_idem v
    · rfl

theorem coerceCell_untouched {c : String} (h1 : c ∉ date_cols) (h2 : c ∉ numeric_cols)
    (v : Value) : coerceCell c v = v := by
  unfold coerceCell
  rw [if_neg h1, if_neg h2]

theorem getCell_coerceRow (cols : List String) (r : List Value) (c : String) :
    getCell cols (coerceRow cols r) c = coerceCell c (getCell cols r c) := by
  induction cols generalizing r with
  | nil => simp [getCell, coerceRow, coerceCell_na]
  | cons c0 cs ih =>
    cases r with
    | nil => simp [getCell, coerceRow, coerceCell_na]
    | cons v vs =>
      simp only [coerceRow, List.zipWith]
      by_cases hc : c0 = c
      · simp [getCell, hc]
      · simpa [getCell, hc, coerceRow] using ih vs

theorem coerceRow_idem (cols : List String) (r : List Value) :
    coerceRow cols (coerceRow cols r) = coerceRow cols r := by
  induction cols generalizing r with
  | nil => rfl
  | cons c0 cs ih =>
    cases r with
    | nil => rfl
    | cons v vs =>
      simp only [coerceRow, List.zipWith] at ih ⊢
      rw [coerceCell_idem, ih]

theorem coerceCell_price (v : Value) : coerceCell "price" v = coerceNum v := by
  unfold coerceCell
  rw [if_neg (by decide), if_pos (by decide)]

theorem coerceCell_bidCount (v : Value) : coerceCell "bidCount" v = coerceNum v := by
  unfold coerceCell
  rw [if_neg (by decide), if_pos (by decide)]

theorem coerceCell_startPrice (v : Value) : coerceCell "startPrice" v = coerceNum v := by
  unfold coerceCell
  rw [if_neg (by decide), if_pos (by decide)]

theorem coerceCell_registeredDate (v : Value) :
    coerceCell "registeredDate" v = coerceDate v := by
  unfold coerceCell
  rw [if_pos (by decide)]

theorem coerceNum_isNum_of_ne_na {v : Value} (h : coerceNum v ≠ .na) :
    (coerceNum v).isNum = true := by
  cases v with
  | str s =>
    cases hp : parseNum s with
    | none => rw [coerceNum, hp] at h; simp at h
    | some x => rw [coerceNum, hp] at h ⊢; rfl
  | na => simp [coerceNum] at h
  | num x => rfl
  | date d => simp [coerceNum] at h

theorem coerceNum_na_or_isNum (v : Value) :
    ((coerceNum v).isNa || (coerceNum v).isNum) = true := by
  cases v with
  | str s => cases hp : parseNum s <;> simp [coerceNum, hp, Value.isNa, Value.isNum]
  | _ => rfl

theorem coerceDate_na_or_isDate (v : Value) :
    ((coerceDate v).isNa || (coerceDate v).isDate) = true := by
  cases v with
  | str s => cases hp : parseDate s <;> simp [coerceDate, hp, Value.isNa, Value.isDate]
  | _ => rfl

/-! ## dropna lemmas -/

theorem rowComplete_iff (cols subset : List String) (r : List Value) :
    rowComplete cols subset r = true ↔ ∀ c ∈ subset, getCell cols r c ≠ Value.na := by
  simp [rowComplete, List.all_eq_true]

theorem dropna_eq_some {t u : Table} {subset : List String}
    (h : dropna t subset = some u) :
    u = ⟨t.cols, t.rows.filter (rowComplete t.cols subset)⟩ ∧
      ∀ c ∈ subset, c ∈ t.cols := by
  unfold dropna at h
  split at h
  · rename_i hall
    refine ⟨by injection h with h; exact h.symm, ?_⟩
    intro c hc
    exact of_decide_eq_true (List.all_eq_true.mp hall c hc)
  · exact absurd h (by simp)

theorem dropna_present {t : Table} {subset : List String}
    (hall : ∀ c ∈ subset, c ∈ t.cols) :
    dropna t subset = some ⟨t.cols, t.rows.filter (rowComplete t.cols subset)⟩ := by
  unfold dropna
  rw [if_pos]
  exact List.all_eq_true.mpr (fun c hc => decide_eq_true (hall c hc))

/-! ## clean_data structure lemma -/

theorem clean_data_some {df u : Table} (h : clean_data df = some u) :
    u = ⟨df.cols,
      (((df.rows.filter (rowComplete df.cols ["price", "startPrice", "registeredDate"])).map
        (coerceRow df.cols)).filter (rowComplete df.cols ["price", "bidCount"]))⟩ ∧
      (∀ c ∈ (["price", "startPrice", "registeredDate"] : List String), c ∈ df.cols) ∧
      (∀ c ∈ (["price", "bidCount"] : List String), c ∈ df.cols) := by
  unfold clean_data at h
  cases h1 : dropna df ["price", "startPrice", "registeredDate"] with
  | none => rw [h1] at h; exact absurd h (by simp)
  | some df1 =>
    rw [h1] at h
    simp only [Option.bind_eq_bind, Option.some_bind] at h
    obtain ⟨hdf1, hpres1⟩ := dropna_eq_some h1
    subst hdf1
    obtain ⟨hu, hpres2⟩ := dropna_eq_some h
    refine ⟨?_, hpres1, hpres2⟩
    rw [hu]
    rfl

end Afternic

namespace Afternic

/-! ## Claim C1 -/

/-- C1 counterexample: a row whose `startPrice` fails numeric coercion
passes the presence check before coercion and the final
`dropna(['price','bidCount'])` afterwards, so `clean_data` keeps it with an
undefined (`na`) `startPrice` — contradicting the claim that every row of
`clean(T)` has a non-missing, correctly typed value in all four required
fields. -/
theorem clean_undefined_startPrice_survives :
    clean_data tblBadSP = some tblBadSPclean ∧
    tblBadSPclean.rows = [[.num 5, .na, .date ⟨2020, 1, 1⟩, .num 3]] ∧
    getCell tblBadSPclean.cols [Value.num 5, Value.na, Value.date ⟨2020, 1, 1⟩, Value.num 3]
      "startPrice" = Value.na := by
  refine ⟨by decide, rfl, by decide⟩

/-- C1 (amended): every row surviving `clean_data` has a non-missing
numeric `price` and `bidCount`; its `startPrice` is numeric or the
undefined marker, and its `registeredDate` is a date or the undefined
marker (a required field other than `price`/`bidCount` can still be
undefined after coercion, since the final drop only checks those two). -/
theorem clean_required_fields {df u : Table} (h : clean_data df = some u) :
    ∀ r ∈ u.rows,
      (getCell u.cols r "price").isNum = true ∧
      (getCell u.cols r "bidCount").isNum = true ∧
      ((getCell u.cols r "startPrice").isNa || (getCell u.cols r "startPrice").isNum) = true ∧
      ((getCell u.cols r "registeredDate").isNa
        || (getCell u.cols r "registeredDate").isDate) = true := by
  obtain ⟨hu, -, -⟩ := clean_data_some h
  subst hu
  intro r hr
  simp only [List.mem_filter] at hr
  obtain ⟨hmem, hp2⟩ := hr
  obtain ⟨r0, hr0, rfl⟩ := List.mem_map.mp hmem
  have hp2' := (rowComplete_iff _ _ _).mp hp2
  have hprice := hp2' "price" (by simp)
  have hbid := hp2' "bidCount" (by simp)
  rw [getCell_coerceRow, coerceCell_price] at hprice
  rw [getCell_coerceRow, coerceCell_bidCount] at hbid
  refine ⟨?_, ?_, ?_, ?_⟩
  · show (getCell _ (coerceRow _ r0) "price").isNum = true
    rw [getCell_coerceRow, coerceCell_price]
    exact coerceNum_isNum_of_ne_na hprice
  · show (getCell _ (coerceRow _ r0) "bidCount").isNum = true
    rw [getCell_coerceRow, coerceCell_bidCount]
    exact coerceNum_isNum_of_ne_na hbid
  · show ((getCell _ (coerceRow _ r0) "startPrice").isNa
      || (getCell _ (coerceRow _ r0) "startPrice").isNum) = true
    rw [getCell_coerceRow, coerceCell_startPrice]
    exact coerceNum_na_or_isNum _
  · show ((getCell _ (coerceRow _ r0) "registeredDate").isNa
      || (getCell _ (coerceRow _ r0) "registeredDate").isDate) = true
    rw [getCell_coerceRow, coerceCell_registeredDate]
    exact coerceDate_na_or_isDate _

/-- Witness for `clean_required_fields` at the concrete scenario table. -/
theorem clean_required_fields_witness :
    clean_data tbl9 = some tbl9clean ∧
    ((getCell tbl9clean.cols
        [Value.str "ab.com", Value.num 100, Value.num 80, Value.num 30,
         Value.date ⟨2015, 1, 1⟩, Value.num 2] "price").isNum = true ∧
      (getCell tbl9clean.cols
        [Value.str "ab.com", Value.num 100, Value.num 80, Value.num 30,
         Value.date ⟨2015, 1, 1⟩, Value.num 2] "bidCount").isNum = true ∧
      ((getCell tbl9clean.cols
        [Value.str "ab.com", Value.num 100, Value.num 80, Value.num 30,
         Value.date ⟨2015, 1, 1⟩, Value.num 2] "startPrice").isNa
        || (getCell tbl9clean.cols
        [Value.str "ab.com", Value.num 100, Value.num 80, Value.num 30,
         Value.date ⟨2015, 1, 1⟩, Value.num 2] "startPrice").isNum) = true ∧
      ((getCell tbl9clean.cols
        [Value.str "ab.com", Value.num 100, Value.num 80, Value.num 30,
         Value.date ⟨2015, 1, 1⟩, Value.num 2] "registeredDate").isNa
        || (getCell tbl9clean.cols
        [Value.str "ab.com", Value.num 100, Value.num 80, Value.num 30,
         Value.date ⟨2015, 1, 1⟩, Value.num 2] "registeredDate").isDate) = true) :=
  ⟨by decide, @clean_required_fields tbl9 tbl9clean (by decide) _ (by decide)⟩

/-! ## Claim C7 -/

/-- C7: `clean_data` output has the same columns as the input, never more
rows, and each of its rows comes from an input row with identical values
in every column not in the coerced column lists. -/
theorem clean_row_subset {df u : Table} (h : clean_data df = some u) :
    u.cols = df.cols ∧ u.rows.length ≤ df.rows.length ∧
    ∀ r ∈ u.rows, ∃ r0 ∈ df.rows, ∀ c : String, c ∉ date_cols → c ∉ numeric_cols →
      getCell u.cols r c = getCell df.cols r0 c := by
  obtain ⟨hu, -, -⟩ := clean_data_some h
  subst hu
  refine ⟨rfl, ?_, ?_⟩
  · calc (((df.rows.filter _).map (coerceRow df.cols)).filter _).length
        ≤ ((df.rows.filter (rowComplete df.cols
            ["price", "startPrice", "registeredDate"])).map (coerceRow df.cols)).length :=
          List.length_filter_le _ _
      _ = (df.rows.filter (rowComplete df.cols
            ["price", "startPrice", "registeredDate"])).length := List.length_map _ _
      _ ≤ df.rows.length := List.length_filter_le _ _
  · intro r hr
    simp only [List.mem_filter] at hr
    obtain ⟨hmem, -⟩ := hr
    obtain ⟨r0, hr0, rfl⟩ := List.mem_map.mp hmem
    refine ⟨r0, (List.mem_filter.mp hr0).1, ?_⟩
    intro c hc1 hc2
    show getCell _ (coerceRow _ r0) c = getCell _ r0 c
    rw [getCell_coerceRow, coerceCell_untouched hc1 hc2]

/-- Witness for `clean_row_subset` at the concrete scenario table. -/
theorem clean_row_subset_witness :
    clean_data tbl9 = some tbl9clean ∧
    tbl9clean.cols = tbl9.cols ∧ tbl9clean.rows.length ≤ tbl9.rows.length :=
  ⟨by decide, (@clean_row_subset tbl9 tbl9clean (by decide)).1,
    (@clean_row_subset tbl9 tbl9clean (by decide)).2.1⟩

end Afternic

namespace Afternic

/-! ## Claim C4 -/

/-- C4 counterexample: `clean_data` is not idempotent.  A row whose
`startPrice` fails numeric coercion survives the first clean (the final
drop only checks `price` and `bidCount`), but the second clean's presence
check `dropna(['price','startPrice','registeredDate'])` then removes it. -/
theorem clean_not_idempotent :
    clean_data tblBadSP = some tblBadSPclean ∧
    clean_data tblBadSPclean = some ⟨tblBadSPclean.cols, []⟩ ∧
    tblBadSPclean.rows ≠ [] := by
  refine ⟨by decide, by decide, by decide⟩

/-- C4 (amended): `clean_data` is idempotent on every output table in which
no row carries an undefined `startPrice` or `registeredDate` (in particular
whenever all date and numeric coercions of the required fields succeeded);
in general a row whose `startPrice` or `registeredDate` failed coercion
survives one clean and is dropped by the next. -/
theorem clean_idempotent_on_defined {df u : Table} (h : clean_data df = some u)
    (hnice : ∀ r ∈ u.rows,
      getCell u.cols r "startPrice" ≠ Value.na ∧
      getCell u.cols r "registeredDate" ≠ Value.na) :
    clean_data u = some u := by
  obtain ⟨hu, hpres1, hpres2⟩ := clean_data_some h
  subst hu
  set R := ((df.rows.filter (rowComplete df.cols ["price", "startPrice", "registeredDate"])).map
    (coerceRow df.cols)).filter (rowComplete df.cols ["price", "bidCount"]) with hRdef
  have hrowsP2 : ∀ r ∈ R, rowComplete df.cols ["price", "bidCount"] r = true :=
    fun r hr => List.of_mem_filter hr
  have hrowsCoerced : ∀ r ∈ R, coerceRow df.cols r = id r := by
    intro r hr
    have hmem := (List.mem_filter.mp hr).1
    obtain ⟨r0, -, rfl⟩ := List.mem_map.mp hmem
    exact coerceRow_idem df.cols r0
  have hrowsP1 : ∀ r ∈ R,
      rowComplete df.cols ["price", "startPrice", "registeredDate"] r = true := by
    intro r hr
    rw [rowComplete_iff]
    intro c hc
    have hprice := (rowComplete_iff _ _ _).mp (hrowsP2 r hr) "price" (by simp)
    fin_cases hc
    · exact hprice
    · exact (hnice r hr).1
    · exact (hnice r hr).2
  have step1 : dropna ⟨df.cols, R⟩ ["price", "startPrice", "registeredDate"] =
      some ⟨df.cols, R⟩ := by
    have hfix : R.filter (rowComplete df.cols ["price", "startPrice", "registeredDate"]) = R :=
      List.filter_eq_self.mpr hrowsP1
    rw [dropna_present (t := ⟨df.cols, R⟩) hpres1]
    exact congrArg some (congrArg (Table.mk df.cols) hfix)
  have step2 : coerceTable ⟨df.cols, R⟩ = ⟨df.cols, R⟩ := by
    show Table.mk df.cols (R.map (coerceRow df.cols)) = Table.mk df.cols R
    rw [List.map_congr_left hrowsCoerced, List.map_id]
  have step3 : dropna ⟨df.cols, R⟩ ["price", "bidCount"] = some ⟨df.cols, R⟩ := by
    have hfix : R.filter (rowComplete df.cols ["price", "bidCount"]) = R :=
      List.filter_eq_self.mpr hrowsP2
    rw [dropna_present (t := ⟨df.cols, R⟩) hpres2]
    exact congrArg some (congrArg (Table.mk df.cols) hfix)
  show clean_data ⟨df.cols, R⟩ = some ⟨df.cols, R⟩
  unfold clean_data
  rw [step1]
  simp only [Option.bind_eq_bind, Option.some_bind]
  rw [step2, step3]

/-- Witness for `clean_idempotent_on_defined` at the concrete scenario
table, whose two surviving rows have fully defined required fields. -/
theorem clean_idempotent_on_defined_witness :
    clean_data tbl9 = some tbl9clean ∧ clean_data tbl9clean = some tbl9clean :=
  ⟨by decide, @clean_idempotent_on_defined tbl9 tbl9clean (by decide) (by decide)⟩

/-! ## Claim C5 -/

/-- C5: when the table lacks the `price` or the `ahrefsDomainRating`
column, `suggest_domains` returns the empty table together with exactly one
printed diagnostic message, and does not raise. -/
theorem suggest_missing_column {df : Table} (p q : Rat)
    (h : "price" ∉ df.cols ∨ "ahrefsDomainRating" ∉ df.cols) :
    ∃ m : String, suggest_domains df p q = some ([m], emptyTable) := by
  unfold suggest_domains
  by_cases hp : "price" ∈ df.cols
  · have hr : "ahrefsDomainRating" ∉ df.cols := by
      rcases h with h | h
      · exact absurd hp h
      · exact h
    rw [if_neg (not_not_intro hp), if_pos hr]
    exact ⟨_, rfl⟩
  · rw [if_pos hp]
    exact ⟨_, rfl⟩

/-- Witness for `suggest_missing_column` at a concrete table with no
`price` column. -/
theorem suggest_missing_column_witness :
    ∃ m : String, suggest_domains tblNoPrice 500 10 = some ([m], emptyTable) :=
  @suggest_missing_column tblNoPrice 500 10 (Or.inl (by decide))

/-! ## Claim C10 -/

/-- C10: the default rating threshold of `suggest_domains` is 10, not the
documented 20: calling with the threshold omitted equals calling with 10,
`main` passes 20 explicitly, and the two defaults are observably different
on a table whose rating lies strictly between 10 and 20. -/
theorem suggest_default_rating_threshold :
    (∀ df : Table, suggest_domains df 500 = suggest_domains df 500 10) ∧
    (∀ df : Table, main_suggest df = suggest_domains df 500 20) ∧
    suggest_domains tblMid 500 ≠ suggest_domains tblMid 500 20 := by
  refine ⟨fun df => rfl, fun df => rfl, by decide⟩

end Afternic

namespace Afternic

/-! ## Filter-mask lemmas -/

theorem ltVal_true {v : Value} {p : Rat} (h : ltVal v p = some true) :
    ∃ x : Rat, v = Value.num x ∧ x < p := by
  cases v with
  | num x =>
    refine ⟨x, rfl, ?_⟩
    simpa [ltVal] using h
  | na => simp [ltVal] at h
  | str s => simp [ltVal] at h
  | date d => simp [ltVal] at h

theorem gtVal_true {v : Value} {q : Rat} (h : gtVal v q = some true) :
    ∃ y : Rat, v = Value.num y ∧ q < y := by
  cases v with
  | num x =>
    refine ⟨x, rfl, ?_⟩
    simpa [gtVal] using h
  | na => simp [gtVal] at h
  | str s => simp [gtVal] at h
  | date d => simp [gtVal] at h

theorem rowMask_true {cols : List String} {p q : Rat} {r : List Value}
    (h : rowMask cols p q r = some true) :
    ∃ x y : Rat, getCell cols r "price" = Value.num x ∧ x < p ∧
      getCell cols r "ahrefsDomainRating" = Value.num y ∧ q < y := by
  unfold rowMask at h
  cases hlt : ltVal (getCell cols r "price") p with
  | none => rw [hlt] at h; simp at h
  | some b1 =>
    cases hgt : gtVal (getCell cols r "ahrefsDomainRating") q with
    | none => rw [hlt, hgt] at h; simp at h
    | some b2 =>
      rw [hlt, hgt] at h
      injection h with hb
      obtain ⟨h1, h2⟩ := Bool.and_eq_true_iff.mp hb
      subst h1
      subst h2
      obtain ⟨x, hx, hxp⟩ := ltVal_true hlt
      obtain ⟨y, hy, hyq⟩ := gtVal_true hgt
      exact ⟨x, y, hx, hxp, hy, hyq⟩

theorem rowMask_of_num {cols : List String} {p q : Rat} {r : List Value} {x y : Rat}
    (hx : getCell cols r "price" = Value.num x) (hp : x < p)
    (hy : getCell cols r "ahrefsDomainRating" = Value.num y) (hq : q < y) :
    rowMask cols p q r = some true := by
  unfold rowMask
  rw [hx, hy]
  simp [ltVal, gtVal, hp, hq]

theorem filterMask_mem {f : List Value → Option Bool} {rows kept : List (List Value)}
    (h : filterMask f rows = some kept) (r : List Value) :
    r ∈ kept ↔ r ∈ rows ∧ f r = some true := by
  induction rows generalizing kept with
  | nil =>
    unfold filterMask at h
    injection h with h
    subst h
    simp
  | cons a as ih =>
    unfold filterMask at h
    cases hfa : f a with
    | none => rw [hfa] at h; simp at h
    | some b =>
      rw [hfa] at h
      cases hrest : filterMask f as with
      | none => rw [hrest] at h; simp at h
      | some rest =>
        rw [hrest] at h
        injection h with h
        subst h
        cases b with
        | true =>
          rw [if_pos rfl]
          simp only [List.mem_cons]
          constructor
          · rintro (rfl | hr)
            · exact ⟨Or.inl rfl, hfa⟩
            · obtain ⟨h1, h2⟩ := (ih hrest).mp hr
              exact ⟨Or.inr h1, h2⟩
          · rintro ⟨rfl | hr, hf⟩
            · exact Or.inl rfl
            · exact Or.inr ((ih hrest).mpr ⟨hr, hf⟩)
        | false =>
          rw [if_neg Bool.false_ne_true]
          rw [ih hrest]
          simp only [List.mem_cons]
          constructor
          · rintro ⟨h1, h2⟩
            exact ⟨Or.inr h1, h2⟩
          · rintro ⟨rfl | hr, hf⟩
            · rw [hfa] at hf
              injection hf with hbad
              cases hbad
            · exact ⟨hr, hf⟩

/-! ## Sort lemmas -/

theorem mem_sortDesc {cols : List String} {rows : List (List Value)} {r : List Value} :
    r ∈ sortDesc cols rows ↔ r ∈ rows := by
  unfold sortDesc
  simp only [List.mem_append, List.mem_reverse]
  constructor
  · rintro (h | h)
    · exact (List.mem_filter.mp ((List.perm_insertionSort _ _).mem_iff.mp h)).1
    · exact (List.mem_filter.mp h).1
  · intro h
    by_cases hna : ratingIsNa cols r = true
    · exact Or.inr (List.mem_filter.mpr ⟨h, hna⟩)
    · refine Or.inl ((List.perm_insertionSort _ _).mem_iff.mpr (List.mem_filter.mpr ⟨h, ?_⟩))
      simp [hna]

theorem pairwise_of_snd {α : Type} {R : α → α → Prop} :
    ∀ l : List α, (∀ b ∈ l, ∀ a : α, R a b) → l.Pairwise R
  | [], _ => List.Pairwise.nil
  | a :: as, h =>
    List.Pairwise.cons (fun b hb => h b (List.mem_cons_of_mem _ hb) a)
      (pairwise_of_snd as (fun b hb c => h b (List.mem_cons_of_mem _ hb) c))

theorem ratingGE_of_na {cols : List String} {s : List Value}
    (h : ratingIsNa cols s = true) (r : List Value) : ratingGE cols r s := by
  intro x y hx hy
  unfold ratingIsNa at h
  rw [hy] at h
  simp at h

theorem ratingKey_eq_of_num {cols : List String} {r : List Value} {x : Rat}
    (h : getCell cols r "ahrefsDomainRating" = Value.num x) : ratingKey cols r = x := by
  unfold ratingKey
  rw [h]

theorem sortDesc_pairwise (cols : List String) (rows : List (List Value)) :
    (sortDesc cols rows).Pairwise (ratingGE cols) := by
  unfold sortDesc
  rw [List.pairwise_append]
  refine ⟨?_, ?_, ?_⟩
  · rw [List.pairwise_reverse]
    haveI : IsTotal (List Value) (fun r s => ratingKey cols r ≤ ratingKey cols s) :=
      ⟨fun a b => le_total _ _⟩
    haveI : IsTrans (List Value) (fun r s => ratingKey cols r ≤ ratingKey cols s) :=
      ⟨fun a b c hab hbc => le_trans hab hbc⟩
    have hs := List.sorted_insertionSort
      (fun r s => ratingKey cols r ≤ ratingKey cols s)
      (rows.filter (fun r => !ratingIsNa cols r))
    refine hs.imp ?_
    intro a b hab
    intro x y hx hy
    have hka : ratingKey cols b = x := ratingKey_eq_of_num hx
    have hkb : ratingKey cols a = y := ratingKey_eq_of_num hy
    rw [← hka, ← hkb]
    exact hab
  · exact pairwise_of_snd _ (fun b hb a => ratingGE_of_na (List.of_mem_filter hb) a)
  · intro a ha b hb
    exact ratingGE_of_na (List.of_mem_filter hb) a

end Afternic

namespace Afternic

/-! ## suggest_domains structure lemma -/

theorem suggest_domains_some {df R : Table} {msgs : List String} {p q : Rat}
    (hp : "price" ∈ df.cols) (hq : "ahrefsDomainRating" ∈ df.cols)
    (h : suggest_domains df p q = some (msgs, R)) :
    ∃ kept, filterMask (rowMask df.cols p q) df.rows = some kept ∧
      R = ⟨df.cols, sortDesc df.cols kept⟩ ∧ msgs = [] := by
  unfold suggest_domains at h
  rw [if_neg (not_not_intro hp), if_neg (not_not_intro hq)] at h
  cases hf : filterMask (rowMask df.cols p q) df.rows with
  | none => rw [hf] at h; simp at h
  | some kept =>
    rw [hf] at h
    injection h with h
    obtain ⟨hmsgs, hR⟩ := Prod.mk.injEq .. ▸ h
    exact ⟨kept, rfl, hR.symm, hmsgs.symm⟩

/-! ## Claim C2 -/

/-- C2: rows returned by `suggest_domains` are exactly the input rows with
a numeric `price` strictly below the price threshold and a numeric
`ahrefsDomainRating` strictly above the rating threshold; rows with an
undefined value in either compared field are excluded (the comparison
yields false on `NaN`). -/
theorem suggest_selection {df R : Table} {msgs : List String} (p q : Rat)
    (hp : "price" ∈ df.cols) (hq : "ahrefsDomainRating" ∈ df.cols)
    (h : suggest_domains df p q = some (msgs, R)) :
    (∀ r ∈ R.rows, ∃ x y : Rat,
        getCell R.cols r "price" = Value.num x ∧ x < p ∧
        getCell R.cols r "ahrefsDomainRating" = Value.num y ∧ q < y) ∧
    (∀ r ∈ df.rows, ∀ x y : Rat,
        getCell df.cols r "price" = Value.num x → x < p →
        getCell df.cols r "ahrefsDomainRating" = Value.num y → q < y →
        r ∈ R.rows) ∧
    (∀ r ∈ df.rows,
        getCell df.cols r "price" = Value.na ∨
          getCell df.cols r "ahrefsDomainRating" = Value.na →
        r ∉ R.rows) := by
  obtain ⟨kept, hkept, hR, -⟩ := suggest_domains_some hp hq h
  subst hR
  refine ⟨?_, ?_, ?_⟩
  · intro r hr
    have hmem : r ∈ kept := mem_sortDesc.mp hr
    have hmask := ((filterMask_mem hkept r).mp hmem).2
    exact rowMask_true hmask
  · intro r hrdf x y hx hlt hy hgt
    exact mem_sortDesc.mpr ((filterMask_mem hkept r).mpr ⟨hrdf, rowMask_of_num hx hlt hy hgt⟩)
  · intro r hrdf hna hmem
    obtain ⟨x, y, hx, -, hy, -⟩ :=
      rowMask_true ((filterMask_mem hkept r).mp (mem_sortDesc.mp hmem)).2
    rcases hna with hna | hna
    · rw [hna] at hx
      cases hx
    · rw [hna] at hy
      cases hy

/-- Witness for `suggest_selection`: on the concrete two-row tie table the
first returned row has price 20 < 500 and rating 30 > 10. -/
theorem suggest_selection_witness :
    ∃ x y : Rat,
      getCell (Table.mk ["price", "ahrefsDomainRating", "url"] [rowTieB, rowTieA]).cols rowTieB
          "price" = Value.num x ∧ x < 500 ∧
      getCell (Table.mk ["price", "ahrefsDomainRating", "url"] [rowTieB, rowTieA]).cols rowTieB
          "ahrefsDomainRating" = Value.num y ∧ (10 : Rat) < y :=
  (@suggest_selection tblTie ⟨["price", "ahrefsDomainRating", "url"], [rowTieB, rowTieA]⟩
      [] 500 10 (by decide) (by decide) (by decide)).1 rowTieB (by decide)

/-! ## Claim C3 -/

/-- C3 counterexample: the two rows of `tblTie` both pass the filter and
have equal ratings, yet `suggest_domains` returns them in the reverse of
their input order — pandas reverses a stable ascending argsort for a
descending sort, so ties do not keep their input order. -/
theorem suggest_sort_not_stable :
    tblTie.rows = [rowTieA, rowTieB] ∧
    rowTieA ≠ rowTieB ∧
    getCell tblTie.cols rowTieA "ahrefsDomainRating" =
      getCell tblTie.cols rowTieB "ahrefsDomainRating" ∧
    suggest_domains tblTie 500 10 =
      some ([], ⟨tblTie.cols, [rowTieB, rowTieA]⟩) := by
  refine ⟨rfl, by decide, by decide, by decide⟩

/-- C3 (amended): the rows returned by `suggest_domains` are in
non-increasing order of `ahrefsDomainRating`; equal-rating rows need not
keep their input order (in the model they come out reversed). -/
theorem suggest_sorted_desc {df R : Table} {msgs : List String} {p q : Rat}
    (h : suggest_domains df p q = some (msgs, R)) :
    R.rows.Pairwise (ratingGE R.cols) := by
  unfold suggest_domains at h
  split at h
  · injection h with h
    injection h with h1 h2
    subst h2
    exact List.Pairwise.nil
  · split at h
    · injection h with h
      injection h with h1 h2
      subst h2
      exact List.Pairwise.nil
    · cases hf : filterMask (rowMask df.cols p q) df.rows with
      | none => rw [hf] at h; simp at h
      | some kept =>
        rw [hf] at h
        injection h with h
        injection h with h1 h2
        subst h2
        exact sortDesc_pairwise df.cols kept

/-- Witness for `suggest_sorted_desc` at the concrete tie table. -/
theorem suggest_sorted_desc_witness :
    (Table.mk ["price", "ahrefsDomainRating", "url"] [rowTieB, rowTieA]).rows.Pairwise
      (ratingGE (Table.mk ["price", "ahrefsDomainRating", "url"] [rowTieB, rowTieA]).cols) :=
  @suggest_sorted_desc tblTie ⟨["price", "ahrefsDomainRating", "url"], [rowTieB, rowTieA]⟩
    [] 500 10 (by decide)

end Afternic

namespace Afternic

/-! ## Claim C8 -/

theorem readRef_append {σ : List Table} {i : Nat} (h : i < σ.length) (t : Table) :
    readRef (σ ++ [t]) i = readRef σ i :=
  List.getD_append σ [t] emptyTable i h

theorem readRef_set_ne {σ : List Table} {i j : Nat} (h : j ≠ i) (t : Table) :
    readRef (σ.set j t) i = readRef σ i := by
  unfold readRef
  rw [List.getD_eq_getElem?_getD, List.getElem?_set_ne h, ← List.getD_eq_getElem?_getD]

/-- C8: `suggest_domains` does not mutate its argument.  In the
heap-passing rendering `suggestStep`, the caller's store entry is unchanged
by the call: boolean indexing and `.copy()` allocate fresh entries and the
in-place `sort_values` writes only through the freshly copied reference. -/
theorem suggest_no_mutation {σ σ' : List Table} {dfRef r : Nat} {msgs : List String}
    (p q : Rat) (hlt : dfRef < σ.length)
    (h : suggestStep σ dfRef p q = some (σ', r, msgs)) :
    readRef σ' dfRef = readRef σ dfRef := by
  simp only [suggestStep] at h
  split at h
  · injection h with h
    injection h with h1 h2
    subst h1
    exact readRef_append hlt _
  · split at h
    · injection h with h
      injection h with h1 h2
      subst h1
      exact readRef_append hlt _
    · cases hf : filterMask (rowMask (readRef σ dfRef).cols p q) (readRef σ dfRef).rows with
      | none => rw [hf] at h; simp at h
      | some kept =>
        rw [hf] at h
        injection h with h
        injection h with h1 h2
        subst h1
        have hlt1 : dfRef < (σ ++ [(⟨(readRef σ dfRef).cols, kept⟩ : Table)]).length := by
          rw [List.length_append]
          exact Nat.lt_of_lt_of_le hlt (Nat.le_add_right _ _)
        have hne : (σ ++ [(⟨(readRef σ dfRef).cols, kept⟩ : Table)]).length ≠ dfRef := by
          intro hbad
          exact absurd (hbad ▸ hlt1) (lt_irrefl _)
        rw [readRef_set_ne hne, readRef_append hlt1, readRef_append hlt]

/-- Witness for `suggest_no_mutation` on a one-table store. -/
theorem suggest_no_mutation_witness :
    suggestStep [tblTie] 0 500 10 =
      some ([tblTie,
             ⟨["price", "ahrefsDomainRating", "url"], [rowTieA, rowTieB]⟩,
             ⟨["price", "ahrefsDomainRating", "url"], [rowTieB, rowTieA]⟩], 2, []) ∧
    readRef [tblTie,
             (⟨["price", "ahrefsDomainRating", "url"], [rowTieA, rowTieB]⟩ : Table),
             (⟨["price", "ahrefsDomainRating", "url"], [rowTieB, rowTieA]⟩ : Table)] 0 =
      readRef [tblTie] 0 :=
  ⟨by decide,
    @suggest_no_mutation [tblTie]
      [tblTie,
       ⟨["price", "ahrefsDomainRating", "url"], [rowTieA, rowTieB]⟩,
       ⟨["price", "ahrefsDomainRating", "url"], [rowTieB, rowTieA]⟩] 0 2 []
      500 10 (by decide) (by decide)⟩

end Afternic

namespace Afternic

/-! ## setCol lemma kit -/

theorem setAtCol_length (cols : List String) (r : List Value) (c : String) (w : Value) :
    (setAtCol cols r c w).length = r.length := by
  induction cols generalizing r with
  | nil => rfl
  | cons c0 cs ih =>
    cases r with
    | nil => rfl
    | cons v vs =>
      unfold setAtCol
      by_cases hc : c0 = c
      · rw [if_pos hc]
        rfl
      · rw [if_neg hc]
        simp [ih vs]

theorem getCell_setAtCol_ne (cols : List String) (r : List Value) {c c' : String} {w : Value}
    (h : c' ≠ c) : getCell cols (setAtCol cols r c w) c' = getCell cols r c' := by
  induction cols generalizing r with
  | nil => rfl
  | cons c0 cs ih =>
    cases r with
    | nil => rfl
    | cons v vs =>
      unfold setAtCol
      by_cases hc : c0 = c
      · rw [if_pos hc]
        unfold getCell
        have hne : c0 ≠ c' := fun hbad => h (hbad.symm.trans hc)
        rw [if_neg hne, if_neg hne]
      · rw [if_neg hc]
        unfold getCell
        by_cases hc' : c0 = c'
        · rw [if_pos hc', if_pos hc']
        · rw [if_neg hc', if_neg hc']
          exact ih vs

theorem getCell_setAtCol_self {cols : List String} {r : List Value} {c : String} {w : Value}
    (hc : c ∈ cols) (hlen : r.length = cols.length) :
    getCell cols (setAtCol cols r c w) c = w := by
  induction cols generalizing r with
  | nil => cases hc
  | cons c0 cs ih =>
    cases r with
    | nil => simp at hlen
    | cons v vs =>
      unfold setAtCol
      by_cases h0 : c0 = c
      · rw [if_pos h0]
        unfold getCell
        rw [if_pos h0]
      · rw [if_neg h0]
        unfold getCell
        rw [if_neg h0]
        have hcs : c ∈ cs := by
          rcases List.mem_cons.mp hc with hbad | hcs
          · exact absurd hbad.symm h0
          · exact hcs
        have hl : vs.length = cs.length := by simpa using hlen
        exact ih hcs hl

theorem getCell_append_ne (cols : List String) (r : List Value) {c c' : String} {w : Value}
    (h : c' ≠ c) (hlen : r.length = cols.length) :
    getCell (cols ++ [c]) (r ++ [w]) c' = getCell cols r c' := by
  induction cols generalizing r with
  | nil =>
    cases r with
    | nil =>
      simp only [List.nil_append]
      unfold getCell
      rw [if_neg (fun hbad => h hbad.symm)]
      rfl
    | cons v vs => simp at hlen
  | cons c0 cs ih =>
    cases r with
    | nil => simp at hlen
    | cons v vs =>
      simp only [List.cons_append]
      unfold getCell
      by_cases hc0 : c0 = c'
      · rw [if_pos hc0, if_pos hc0]
      · rw [if_neg hc0, if_neg hc0]
        exact ih vs (by simpa using hlen)

theorem getCell_append_self (cols : List String) (r : List Value) {c : String} {w : Value}
    (hnc : c ∉ cols) (hlen : r.length = cols.length) :
    getCell (cols ++ [c]) (r ++ [w]) c = w := by
  induction cols generalizing r with
  | nil =>
    cases r with
    | nil =>
      simp only [List.nil_append]
      unfold getCell
      rw [if_pos rfl]
    | cons v vs => simp at hlen
  | cons c0 cs ih =>
    cases r with
    | nil => simp at hlen
    | cons v vs =>
      simp only [List.cons_append]
      unfold getCell
      have hc0 : c0 ≠ c := fun hbad => hnc (hbad ▸ List.mem_cons_self c0 cs)
      rw [if_neg hc0]
      exact ih vs (fun hbad => hnc (List.mem_cons_of_mem _ hbad)) (by simpa using hlen)

theorem zipWith_mem {α β γ : Type} {f : α → β → γ} :
    ∀ {as : List α} {bs : List β} {c : γ}, c ∈ List.zipWith f as bs →
      ∃ a b, a ∈ as ∧ b ∈ bs ∧ c = f a b := by
  intro as
  induction as with
  | nil => intro bs c h; simp at h
  | cons a as ih =>
    intro bs c h
    cases bs with
    | nil => simp at h
    | cons b bs =>
      rcases List.mem_cons.mp h with rfl | h
      · exact ⟨a, b, List.mem_cons_self _ _, List.mem_cons_self _ _, rfl⟩
      · obtain ⟨a', b', ha, hb, hc⟩ := ih h
        exact ⟨a', b', List.mem_cons_of_mem _ ha, List.mem_cons_of_mem _ hb, hc⟩

theorem zipWith_getD {α β γ : Type} (f : α → β → γ) (a0 : α) (b0 : β) (c0 : γ) :
    ∀ (as : List α) (bs : List β) (i : Nat), i < as.length → i < bs.length →
      (List.zipWith f as bs).getD i c0 = f (as.getD i a0) (bs.getD i b0) := by
  intro as
  induction as with
  | nil => intro bs i h1 h2; simp at h1
  | cons a as ih =>
    intro bs i h1 h2
    cases bs with
    | nil => simp at h2
    | cons b bs =>
      cases i with
      | zero => rfl
      | succ j =>
        have := ih bs j (by simpa using h1) (by simpa using h2)
        simpa [List.getD_cons_succ] using this

theorem mapOpt_length {α β : Type} {f : α → Option β} :
    ∀ {as : List α} {bs : List β}, mapOpt f as = some bs → bs.length = as.length := by
  intro as
  induction as with
  | nil =>
    intro bs h
    unfold mapOpt at h
    injection h with h
    subst h
    rfl
  | cons a as ih =>
    intro bs h
    unfold mapOpt at h
    cases hfa : f a with
    | none => rw [hfa] at h; simp at h
    | some b =>
      rw [hfa] at h
      cases hrest : mapOpt f as with
      | none => rw [hrest] at h; simp at h
      | some rest =>
        rw [hrest] at h
        injection h with h
        subst h
        simp [ih hrest]

theorem mapOpt_getD {α β : Type} {f : α → Option β} (a0 : α) (b0 : β) :
    ∀ {as : List α} {bs : List β}, mapOpt f as = some bs →
      ∀ i, i < as.length → f (as.getD i a0) = some (bs.getD i b0) := by
  intro as
  induction as with
  | nil => intro bs h i hi; simp at hi
  | cons a as ih =>
    intro bs h i hi
    unfold mapOpt at h
    cases hfa : f a with
    | none => rw [hfa] at h; simp at h
    | some b =>
      rw [hfa] at h
      cases hrest : mapOpt f as with
      | none => rw [hrest] at h; simp at h
      | some rest =>
        rw [hrest] at h
        injection h with h
        subst h
        cases i with
        | zero => simpa using hfa
        | succ j => simpa [List.getD_cons_succ] using ih hrest j (by simpa using hi)

theorem getD_mem {α : Type} {l : List α} {i : Nat} (d : α) (h : i < l.length) :
    l.getD i d ∈ l := by
  rw [List.getD_eq_getElem l d h]
  exact List.getElem_mem h

end Afternic

namespace Afternic

/-- Full specification of the column assignment `t.setCol name vs` on a
rectangular table: well-formedness and row count are preserved, `name` is a
column of the result, other column names are untouched, the new column's
cells are the given values, and every other cell is unchanged. -/
theorem setCol_spec (t : Table) (name : String) (vs : List Value)
    (hwf : t.WF) (hlen : vs.length = t.rows.length) :
    (t.setCol name vs).WF ∧
    (t.setCol name vs).rows.length = t.rows.length ∧
    name ∈ (t.setCol name vs).cols ∧
    (∀ c', c' ≠ name → (c' ∈ (t.setCol name vs).cols ↔ c' ∈ t.cols)) ∧
    (∀ i, i < t.rows.length →
      getCell (t.setCol name vs).cols ((t.setCol name vs).rows.getD i []) name =
        vs.getD i Value.na ∧
      ∀ c', c' ≠ name →
        getCell (t.setCol name vs).cols ((t.setCol name vs).rows.getD i []) c' =
          getCell t.cols (t.rows.getD i []) c') := by
  unfold Table.setCol
  by_cases hmem : name ∈ t.cols
  · rw [if_pos hmem]
    refine ⟨?_, ?_, hmem, ?_, ?_⟩
    · intro r hr
      obtain ⟨a, b, ha, hb, rfl⟩ := zipWith_mem hr
      show (setAtCol t.cols a name b).length = t.cols.length
      rw [setAtCol_length]
      exact hwf a ha
    · show (List.zipWith _ t.rows vs).length = t.rows.length
      rw [List.length_zipWith, hlen, Nat.min_self]
    · intro c' hne
      exact Iff.rfl
    · intro i hi
      have hivs : i < vs.length := by rw [hlen]; exact hi
      have hzip : (List.zipWith (fun r w => setAtCol t.cols r name w) t.rows vs).getD i [] =
          setAtCol t.cols (t.rows.getD i []) name (vs.getD i Value.na) :=
        zipWith_getD _ [] Value.na [] t.rows vs i hi hivs
      constructor
      · show getCell t.cols ((List.zipWith _ t.rows vs).getD i []) name = _
        rw [hzip]
        exact getCell_setAtCol_self hmem (hwf _ (getD_mem [] hi))
      · intro c' hne
        show getCell t.cols ((List.zipWith _ t.rows vs).getD i []) c' = _
        rw [hzip]
        exact getCell_setAtCol_ne t.cols _ hne
  · rw [if_neg hmem]
    refine ⟨?_, ?_, ?_, ?_, ?_⟩
    · intro r hr
      obtain ⟨a, b, ha, hb, rfl⟩ := zipWith_mem hr
      show (a ++ [b]).length = (t.cols ++ [name]).length
      simp [hwf a ha]
    · show (List.zipWith _ t.rows vs).length = t.rows.length
      rw [List.length_zipWith, hlen, Nat.min_self]
    · exact List.mem_append.mpr (Or.inr (List.mem_singleton.mpr rfl))
    · intro c' hne
      constructor
      · intro hc
        rcases List.mem_append.mp hc with hc | hc
        · exact hc
        · exact absurd (List.mem_singleton.mp hc) hne
      · intro hc
        exact List.mem_append.mpr (Or.inl hc)
    · intro i hi
      have hivs : i < vs.length := by rw [hlen]; exact hi
      have hzip : (List.zipWith (fun r w => r ++ [w]) t.rows vs).getD i [] =
          t.rows.getD i [] ++ [vs.getD i Value.na] :=
        zipWith_getD _ [] Value.na [] t.rows vs i hi hivs
      constructor
      · show getCell (t.cols ++ [name]) ((List.zipWith _ t.rows vs).getD i []) name = _
        rw [hzip]
        exact getCell_append_self t.cols _ hmem (hwf _ (getD_mem [] hi))
      · intro c' hne
        show getCell (t.cols ++ [name]) ((List.zipWith _ t.rows vs).getD i []) c' = _
        rw [hzip]
        exact getCell_append_ne t.cols _ hne (hwf _ (getD_mem [] hi))

end Afternic

namespace Afternic

/-- Specification of a pure conditional column-derivation step of
`feature_engineering` (the `domainLength` step). -/
theorem stepPure_spec {t : Table} {name : String} {g : List Value → Value} {cond : Prop}
    [Decidable cond] (hwf : t.WF) :
    (if cond then t.setCol name (t.rows.map g) else t).WF ∧
    (if cond then t.setCol name (t.rows.map g) else t).rows.length = t.rows.length ∧
    (cond → name ∈ (if cond then t.setCol name (t.rows.map g) else t).cols) ∧
    (¬cond → (if cond then t.setCol name (t.rows.map g) else t) = t) ∧
    (∀ c', c' ≠ name →
      (c' ∈ (if cond then t.setCol name (t.rows.map g) else t).cols ↔ c' ∈ t.cols)) ∧
    ∀ i, i < t.rows.length →
      (cond → getCell (if cond then t.setCol name (t.rows.map g) else t).cols
          ((if cond then t.setCol name (t.rows.map g) else t).rows.getD i []) name =
          g (t.rows.getD i [])) ∧
      ∀ c', c' ≠ name →
        getCell (if cond then t.setCol name (t.rows.map g) else t).cols
            ((if cond then t.setCol name (t.rows.map g) else t).rows.getD i []) c' =
          getCell t.cols (t.rows.getD i []) c' := by
  by_cases hc : cond
  · rw [if_pos hc]
    obtain ⟨s1, s2, s3, s4, s5⟩ :=
      setCol_spec t name (t.rows.map g) hwf (List.length_map _ _)
    refine ⟨s1, s2, fun _ => s3, fun hbad => absurd hc hbad, s4, ?_⟩
    intro i hi
    have hmap : (t.rows.map g).getD i Value.na = g (t.rows.getD i []) := by
      rw [List.getD_eq_getElem _ _ (by simpa using hi), List.getElem_map,
        List.getD_eq_getElem _ _ hi]
    obtain ⟨c1, c2⟩ := s5 i hi
    exact ⟨fun _ => by rw [c1, hmap], c2⟩
  · rw [if_neg hc]
    refine ⟨hwf, rfl, fun hbad => absurd hbad hc, fun _ => rfl, fun c' hne => Iff.rfl, ?_⟩
    intro i hi
    exact ⟨fun hbad => absurd hbad hc, fun c' hne => rfl⟩

/-- Specification of a fallible conditional column-derivation step of
`feature_engineering` (the `domainAge`, `priceDiff` and
`auctionDurationDays` steps). -/
theorem stepOpt_spec {t u : Table} {name : String} {g : List Value → Option Value}
    {cond : Prop} [Decidable cond] (hwf : t.WF)
    (h : (if cond then (mapOpt g t.rows).bind (fun vs => some (t.setCol name vs))
          else some t) = some u) :
    u.WF ∧ u.rows.length = t.rows.length ∧
    (cond → name ∈ u.cols) ∧
    (¬cond → u = t) ∧
    (∀ c', c' ≠ name → (c' ∈ u.cols ↔ c' ∈ t.cols)) ∧
    ∀ i, i < t.rows.length →
      (cond → some (getCell u.cols (u.rows.getD i []) name) = g (t.rows.getD i [])) ∧
      ∀ c', c' ≠ name →
        getCell u.cols (u.rows.getD i []) c' = getCell t.cols (t.rows.getD i []) c' := by
  by_cases hc : cond
  · rw [if_pos hc] at h
    cases hm : mapOpt g t.rows with
    | none =>
      rw [hm] at h
      simp at h
    | some vs =>
      rw [hm] at h
      simp only [Option.some_bind] at h
      injection h with h
      subst h
      obtain ⟨s1, s2, s3, s4, s5⟩ := setCol_spec t name vs hwf (mapOpt_length hm)
      refine ⟨s1, s2, fun _ => s3, fun hbad => absurd hc hbad, s4, ?_⟩
      intro i hi
      obtain ⟨c1, c2⟩ := s5 i hi
      refine ⟨fun _ => ?_, c2⟩
      rw [c1]
      exact (mapOpt_getD [] Value.na hm i hi).symm
  · rw [if_neg hc] at h
    injection h with h
    subst h
    refine ⟨hwf, rfl, fun hbad => absurd hbad hc, fun _ => rfl, fun c' hne => Iff.rfl, ?_⟩
    intro i hi
    exact ⟨fun hbad => absurd hbad hc, fun c' hne => rfl⟩

end Afternic

namespace Afternic

/-- Specification of the `domainLength` block. -/
theorem addDomainLength_spec (T : Table) (hwf : T.WF) :
    (addDomainLength T).WF ∧
    (addDomainLength T).rows.length = T.rows.length ∧
    ("url" ∈ T.cols → "domainLength" ∈ (addDomainLength T).cols) ∧
    ("url" ∉ T.cols → addDomainLength T = T) ∧
    (∀ c', c' ≠ "domainLength" → (c' ∈ (addDomainLength T).cols ↔ c' ∈ T.cols)) ∧
    ∀ i, i < T.rows.length →
      ("url" ∈ T.cols →
        getCell (addDomainLength T).cols ((addDomainLength T).rows.getD i []) "domainLength" =
          domLenCell (getCell T.cols (T.rows.getD i []) "url")) ∧
      ∀ c', c' ≠ "domainLength" →
        getCell (addDomainLength T).cols ((addDomainLength T).rows.getD i []) c' =
          getCell T.cols (T.rows.getD i []) c' := by
  unfold addDomainLength
  exact @stepPure_spec T "domainLength" (fun r => domLenCell (getCell T.cols r "url"))
    ("url" ∈ T.cols) _ hwf

/-- Specification of the `domainAge` block. -/
theorem addDomainAge_spec {year : Int} {T u : Table} (hwf : T.WF)
    (h : addDomainAge year T = some u) :
    u.WF ∧ u.rows.length = T.rows.length ∧
    ("registeredDate" ∈ T.cols → "domainAge" ∈ u.cols) ∧
    ("registeredDate" ∉ T.cols → u = T) ∧
    (∀ c', c' ≠ "domainAge" → (c' ∈ u.cols ↔ c' ∈ T.cols)) ∧
    ∀ i, i < T.rows.length →
      ("registeredDate" ∈ T.cols →
        some (getCell u.cols (u.rows.getD i []) "domainAge") =
          domAgeCell year (getCell T.cols (T.rows.getD i []) "registeredDate")) ∧
      ∀ c', c' ≠ "domainAge" →
        getCell u.cols (u.rows.getD i []) c' = getCell T.cols (T.rows.getD i []) c' := by
  unfold addDomainAge at h
  exact @stepOpt_spec T u "domainAge"
    (fun r => domAgeCell year (getCell T.cols r "registeredDate"))
    ("registeredDate" ∈ T.cols) _ hwf h

/-- Specification of the `priceDiff` block. -/
theorem addPriceDiff_spec {T u : Table} (hwf : T.WF)
    (h : addPriceDiff T = some u) :
    u.WF ∧ u.rows.length = T.rows.length ∧
    ("price" ∈ T.cols ∧ "startPrice" ∈ T.cols → "priceDiff" ∈ u.cols) ∧
    (¬("price" ∈ T.cols ∧ "startPrice" ∈ T.cols) → u = T) ∧
    (∀ c', c' ≠ "priceDiff" → (c' ∈ u.cols ↔ c' ∈ T.cols)) ∧
    ∀ i, i < T.rows.length →
      ("price" ∈ T.cols ∧ "startPrice" ∈ T.cols →
        some (getCell u.cols (u.rows.getD i []) "priceDiff") =
          subCell (getCell T.cols (T.rows.getD i []) "price")
            (getCell T.cols (T.rows.getD i []) "startPrice")) ∧
      ∀ c', c' ≠ "priceDiff" →
        getCell u.cols (u.rows.getD i []) c' = getCell T.cols (T.rows.getD i []) c' := by
  unfold addPriceDiff at h
  exact @stepOpt_spec T u "priceDiff"
    (fun r => subCell (getCell T.cols r "price") (getCell T.cols r "startPrice"))
    ("price" ∈ T.cols ∧ "startPrice" ∈ T.cols) _ hwf h

/-- Specification of the `auctionDurationDays` block. -/
theorem addAuctionDuration_spec {T u : Table} (hwf : T.WF)
    (h : addAuctionDuration T = some u) :
    u.WF ∧ u.rows.length = T.rows.length ∧
    ("startDate" ∈ T.cols ∧ "endDate" ∈ T.cols → "auctionDurationDays" ∈ u.cols) ∧
    (¬("startDate" ∈ T.cols ∧ "endDate" ∈ T.cols) → u = T) ∧
    (∀ c', c' ≠ "auctionDurationDays" → (c' ∈ u.cols ↔ c' ∈ T.cols)) ∧
    ∀ i, i < T.rows.length →
      ("startDate" ∈ T.cols ∧ "endDate" ∈ T.cols →
        some (getCell u.cols (u.rows.getD i []) "auctionDurationDays") =
          dateSubCell (getCell T.cols (T.rows.getD i []) "endDate")
            (getCell T.cols (T.rows.getD i []) "startDate")) ∧
      ∀ c', c' ≠ "auctionDurationDays" →
        getCell u.cols (u.rows.getD i []) c' = getCell T.cols (T.rows.getD i []) c' := by
  unfold addAuctionDuration at h
  exact @stepOpt_spec T u "auctionDurationDays"
    (fun r => dateSubCell (getCell T.cols r "endDate") (getCell T.cols r "startDate"))
    ("startDate" ∈ T.cols ∧ "endDate" ∈ T.cols) _ hwf h

/-! ## Claim C6 -/

/-- C6 (amended): whenever `feature_engineering` returns a table (that is,
no vectorized operation raised), no row is removed; each derived column is
present whenever its source column(s) exist, and is absent from the output
when they do not — provided the name was not already a column of the
input; and every derived cell is computed by the corresponding per-cell
operation, which maps an undefined source value to an undefined result. -/
theorem feature_engineering_contract {y : Int} {T U : Table} (hwf : T.WF)
    (h : feature_engineering y T = some U) :
    U.rows.length = T.rows.length ∧
    (("url" ∈ T.cols → "domainLength" ∈ U.cols) ∧
      ("url" ∉ T.cols → "domainLength" ∉ T.cols → "domainLength" ∉ U.cols)) ∧
    (("registeredDate" ∈ T.cols → "domainAge" ∈ U.cols) ∧
      ("registeredDate" ∉ T.cols → "domainAge" ∉ T.cols → "domainAge" ∉ U.cols)) ∧
    (("price" ∈ T.cols ∧ "startPrice" ∈ T.cols → "priceDiff" ∈ U.cols) ∧
      (¬("price" ∈ T.cols ∧ "startPrice" ∈ T.cols) → "priceDiff" ∉ T.cols →
        "priceDiff" ∉ U.cols)) ∧
    (("startDate" ∈ T.cols ∧ "endDate" ∈ T.cols → "auctionDurationDays" ∈ U.cols) ∧
      (¬("startDate" ∈ T.cols ∧ "endDate" ∈ T.cols) → "auctionDurationDays" ∉ T.cols →
        "auctionDurationDays" ∉ U.cols)) ∧
    ∀ i, i < T.rows.length →
      ("url" ∈ T.cols →
        getCell U.cols (U.rows.getD i []) "domainLength" =
          domLenCell (getCell T.cols (T.rows.getD i []) "url")) ∧
      ("registeredDate" ∈ T.cols →
        some (getCell U.cols (U.rows.getD i []) "domainAge") =
          domAgeCell y (getCell T.cols (T.rows.getD i []) "registeredDate")) ∧
      ("price" ∈ T.cols ∧ "startPrice" ∈ T.cols →
        some (getCell U.cols (U.rows.getD i []) "priceDiff") =
          subCell (getCell T.cols (T.rows.getD i []) "price")
            (getCell T.cols (T.rows.getD i []) "startPrice")) ∧
      ("startDate" ∈ T.cols ∧ "endDate" ∈ T.cols →
        some (getCell U.cols (U.rows.getD i []) "auctionDurationDays") =
          dateSubCell (getCell T.cols (T.rows.getD i []) "endDate")
            (getCell T.cols (T.rows.getD i []) "startDate")) := by
  unfold feature_engineering at h
  obtain ⟨t2, h2, h34⟩ := Option.bind_eq_some.mp h
  obtain ⟨t3, h3, h4⟩ := Option.bind_eq_some.mp h34
  obtain ⟨wf1, len1, mem1, skip1, iff1, cell1⟩ := addDomainLength_spec T hwf
  set t1 := addDomainLength T with ht1
  obtain ⟨wf2, len2, mem2, skip2, iff2, cell2⟩ := addDomainAge_spec wf1 h2
  obtain ⟨wf3, len3, mem3, skip3, iff3, cell3⟩ := addPriceDiff_spec wf2 h3
  obtain ⟨wf4, len4, mem4, skip4, iff4, cell4⟩ := addAuctionDuration_spec wf3 h4
  refine ⟨?_, ⟨?_, ?_⟩, ⟨?_, ?_⟩, ⟨?_, ?_⟩, ⟨?_, ?_⟩, ?_⟩
  · rw [len4, len3, len2, len1]
  · intro hurl
    exact (iff4 _ (by decide)).mpr ((iff3 _ (by decide)).mpr
      ((iff2 _ (by decide)).mpr (mem1 hurl)))
  · intro hnurl hnT hU
    have h1' := (iff2 _ (by decide)).mp ((iff3 _ (by decide)).mp ((iff4 _ (by decide)).mp hU))
    rw [skip1 hnurl] at h1'
    exact hnT h1'
  · intro hrd
    have hc2 : "registeredDate" ∈ t1.cols := (iff1 _ (by decide)).mpr hrd
    exact (iff4 _ (by decide)).mpr ((iff3 _ (by decide)).mpr (mem2 hc2))
  · intro hnrd hnT hU
    have hnc2 : ¬("registeredDate" ∈ t1.cols) := fun hc => hnrd ((iff1 _ (by decide)).mp hc)
    have h2' := (iff3 _ (by decide)).mp ((iff4 _ (by decide)).mp hU)
    rw [skip2 hnc2] at h2'
    have h1' := (iff1 _ (by decide)).mp h2'
    exact hnT h1'
  · intro hps
    have hc3 : "price" ∈ t2.cols ∧ "startPrice" ∈ t2.cols :=
      ⟨(iff2 _ (by decide)).mpr ((iff1 _ (by decide)).mpr hps.1),
       (iff2 _ (by decide)).mpr ((iff1 _ (by decide)).mpr hps.2)⟩
    exact (iff4 _ (by decide)).mpr (mem3 hc3)
  · intro hnps hnT hU
    have hnc3 : ¬("price" ∈ t2.cols ∧ "startPrice" ∈ t2.cols) := fun hc =>
      hnps ⟨(iff1 _ (by decide)).mp ((iff2 _ (by decide)).mp hc.1),
            (iff1 _ (by decide)).mp ((iff2 _ (by decide)).mp hc.2)⟩
    have h3' := (iff4 _ (by decide)).mp hU
    rw [skip3 hnc3] at h3'
    exact hnT ((iff1 _ (by decide)).mp ((iff2 _ (by decide)).mp h3'))
  · intro hse
    have hc4 : "startDate" ∈ t3.cols ∧ "endDate" ∈ t3.cols :=
      ⟨(iff3 _ (by decide)).mpr ((iff2 _ (by decide)).mpr ((iff1 _ (by decide)).mpr hse.1)),
       (iff3 _ (by decide)).mpr ((iff2 _ (by decide)).mpr ((iff1 _ (by decide)).mpr hse.2))⟩
    exact mem4 hc4
  · intro hnse hnT hU
    have hnc4 : ¬("startDate" ∈ t3.cols ∧ "endDate" ∈ t3.cols) := fun hc =>
      hnse ⟨(iff1 _ (by decide)).mp ((iff2 _ (by decide)).mp ((iff3 _ (by decide)).mp hc.1)),
            (iff1 _ (by decide)).mp ((iff2 _ (by decide)).mp ((iff3 _ (by decide)).mp hc.2))⟩
    rw [skip4 hnc4] at hU
    exact hnT ((iff1 _ (by decide)).mp ((iff2 _ (by decide)).mp ((iff3 _ (by decide)).mp hU)))
  · intro i hi
    have hi1 : i < t1.rows.length := by rw [len1]; exact hi
    have hi2 : i < t2.rows.length := by rw [len2]; exact hi1
    have hi3 : i < t3.rows.length := by rw [len3]; exact hi2
    refine ⟨?_, ?_, ?_, ?_⟩
    · intro hurl
      have e4 := (cell4 i hi3).2 "domainLength" (by decide)
      have e3 := (cell3 i hi2).2 "domainLength" (by decide)
      have e2 := (cell2 i hi1).2 "domainLength" (by decide)
      have e1 := (cell1 i hi).1 hurl
      rw [e4, e3, e2, e1]
    · intro hrd
      have hc2 : "registeredDate" ∈ t1.cols := (iff1 _ (by decide)).mpr hrd
      have e4 := (cell4 i hi3).2 "domainAge" (by decide)
      have e3 := (cell3 i hi2).2 "domainAge" (by decide)
      have e2 := (cell2 i hi1).1 hc2
      have e1 := (cell1 i hi).2 "registeredDate" (by decide)
      rw [e4, e3, e2, e1]
    · intro hps
      have hc3 : "price" ∈ t2.cols ∧ "startPrice" ∈ t2.cols :=
        ⟨(iff2 _ (by decide)).mpr ((iff1 _ (by decide)).mpr hps.1),
         (iff2 _ (by decide)).mpr ((iff1 _ (by decide)).mpr hps.2)⟩
      have e4 := (cell4 i hi3).2 "priceDiff" (by decide)
      have e3 := (cell3 i hi2).1 hc3
      have ep2 := (cell2 i hi1).2 "price" (by decide)
      have ep1 := (cell1 i hi).2 "price" (by decide)
      have es2 := (cell2 i hi1).2 "startPrice" (by decide)
      have es1 := (cell1 i hi).2 "startPrice" (by decide)
      rw [e4, e3, ep2, ep1, es2, es1]
    · intro hse
      have hc4 : "startDate" ∈ t3.cols ∧ "endDate" ∈ t3.cols :=
        ⟨(iff3 _ (by decide)).mpr ((iff2 _ (by decide)).mpr ((iff1 _ (by decide)).mpr hse.1)),
         (iff3 _ (by decide)).mpr ((iff2 _ (by decide)).mpr ((iff1 _ (by decide)).mpr hse.2))⟩
      have e4 := (cell4 i hi3).1 hc4
      have ee3 := (cell3 i hi2).2 "endDate" (by decide)
      have ee2 := (cell2 i hi1).2 "endDate" (by decide)
      have ee1 := (cell1 i hi).2 "endDate" (by decide)
      have es3 := (cell3 i hi2).2 "startDate" (by decide)
      have es2 := (cell2 i hi1).2 "startDate" (by decide)
      have es1 := (cell1 i hi).2 "startDate" (by decide)
      rw [e4, ee3, ee2, ee1, es3, es2, es1]

end Afternic

namespace Afternic

/-- C6 counterexample, refuting two universal parts of the claim as
stated.  First, on a table that already has a `domainLength` column but no
`url` column, the deriver adds nothing, so `domainLength` is present in
the output even though its source column is absent — it is not "entirely
absent from the output".  Second, on a table whose single row has an
undefined `price` and a string `startPrice`, the vectorized subtraction
`df['price'] - df['startPrice']` raises (modelled as `none`), so a row
with an undefined required source value can raise rather than yield an
undefined derived value. -/
theorem feature_engineering_not_as_claimed :
    (feature_engineering 2025 tblDL = some tblDL ∧
      "url" ∉ tblDL.cols ∧ "domainLength" ∈ tblDL.cols) ∧
    (feature_engineering 2025 tblMix = none ∧
      getCell tblMix.cols (tblMix.rows.getD 0 []) "price" = Value.na) := by
  refine ⟨⟨by decide, by decide, by decide⟩, by decide, by decide⟩

/-- Witness for `feature_engineering_contract` at the cleaned scenario
table. -/
theorem feature_engineering_contract_witness :
    tbl9clean.WF ∧
    feature_engineering 2025 tbl9clean = some tbl9fe ∧
    tbl9fe.rows.length = tbl9clean.rows.length ∧
    "domainLength" ∈ tbl9fe.cols :=
  ⟨by decide, by rfl,
    (@feature_engineering_contract 2025 tbl9clean tbl9fe (by decide) (by rfl)).1,
    (@feature_engineering_contract 2025 tbl9clean tbl9fe (by decide) (by rfl)).2.1.1
      (by decide)⟩

/-! ## Claim C9 -/

/-- C9: on the three-row scenario table, `clean_data` drops exactly row C
(the row missing `price`), the Feature Deriver (run in year 2025) gives
both remaining rows `domainLength` 6 and `priceDiff` 20 and 100
respectively, and `suggest_domains` with thresholds 500 and 20 returns
exactly row A. -/
theorem end_to_end_scenario :
    clean_data tbl9 = some tbl9clean ∧
    tbl9.rows.length = 3 ∧ tbl9clean.rows.length = 2 ∧
    feature_engineering 2025 tbl9clean = some tbl9fe ∧
    getCell tbl9fe.cols tbl9feA "domainLength" = Value.num 6 ∧
    getCell tbl9fe.cols tbl9feB "domainLength" = Value.num 6 ∧
    getCell tbl9fe.cols tbl9feA "priceDiff" = Value.num 20 ∧
    getCell tbl9fe.cols tbl9feB "priceDiff" = Value.num 100 ∧
    suggest_domains tbl9fe 500 20 = some ([], ⟨tbl9fe.cols, [tbl9feA]⟩) ∧
    getCell tbl9fe.cols tbl9feA "url" = Value.str "ab.com" := by
  refine ⟨by decide, rfl, rfl, by rfl, by decide, by decide, ?_, ?_, by rfl, by decide⟩
  · have h : getCell tbl9fe.cols tbl9feA "priceDiff" = Value.num (100 - 80) := by rfl
    rw [h]
    simp only [Value.num.injEq]
    norm_num
  · have h : getCell tbl9fe.cols tbl9feB "priceDiff" = Value.num (600 - 500) := by rfl
    rw [h]
    simp only [Value.num.injEq]
    norm_num

end Afternic
